import Mathlib

/-!
Verification of the json-color-token language server core (server `constants.ts`
and `server.ts`, plus the client constants).  The embedding models strings as
`List Char` (all relevant text is ASCII, where JavaScript's UTF-16 code units
coincide with characters), JavaScript numbers arising from color arithmetic as
exact rationals, and the global-regex `exec` scanning loops as fuel-free
recursion over the remaining text.
-/

namespace JsonColorToken

/-! ### Character classes used by the regex patterns -/

/-- `[0-9]` -/
def isDigitChar (c : Char) : Bool := '0' ≤ c && c ≤ '9'

/-- `[0-9a-fA-F]` -/
def isHexDigitChar (c : Char) : Bool :=
  isDigitChar c || ('a' ≤ c && c ≤ 'f') || ('A' ≤ c && c ≤ 'F')

/-- `[a-zA-Z0-9-]`, the character class of a css variable name in
`cssVariablePattern`. -/
def isCssNameChar (c : Char) : Bool :=
  isDigitChar c || ('a' ≤ c && c ≤ 'z') || ('A' ≤ c && c ≤ 'Z') || c = '-'

/-- `[a-zA-Z0-9-_]`, the character class of a key in `jsonKeyPattern`. -/
def isKeyChar (c : Char) : Bool :=
  isDigitChar c || ('a' ≤ c && c ≤ 'z') || ('A' ≤ c && c ≤ 'Z') || c = '-' || c = '_'

/-- JavaScript regex `\s` (the ASCII part; the patterns are only ever applied
around ASCII punctuation, so the exotic unicode space classes never arise). -/
def isJsWs (c : Char) : Bool :=
  c = ' ' || c = '\t' || c = '\n' || c = '\r' || c = '\x0b' || c = '\x0c'

/-- Numeric value of a hex digit.  `parseInt(-, 16)` yields `NaN` on input with
no leading hex digit; the model is only applied to hex-digit slices. -/
def hexDigitVal (c : Char) : Nat :=
  if '0' ≤ c ∧ c ≤ '9' then c.toNat - '0'.toNat
  else if 'a' ≤ c ∧ c ≤ 'f' then c.toNat - 'a'.toNat + 10
  else if 'A' ≤ c ∧ c ≤ 'F' then c.toNat - 'A'.toNat + 10
  else 0

/-- JavaScript `parseInt(s, 16)` on a string of hex digits (parses the maximal
leading run of hex digits). -/
def parseIntHex (cs : List Char) : Nat :=
  (cs.takeWhile isHexDigitChar).foldl (fun acc c => 16 * acc + hexDigitVal c) 0

/-- JavaScript `parseInt(s, 10)` on a string of decimal digits. -/
def parseIntDec (cs : List Char) : Nat :=
  (cs.takeWhile isDigitChar).foldl (fun acc c => 10 * acc + (c.toNat - '0'.toNat)) 0

/-! ### `colorTokenPattern`

`/#([0-9a-fA-F]{6}([0-9a-fA-F]{2})?|[0-9a-fA-F]{3}([0-9a-fA-F]{1})?)/g`

At a `#`, the regex first tries six hex digits with an optional further two
(both greedy), and otherwise three hex digits with an optional further one, so
the length of the match is determined by the length of the run of hex digits
after the `#`. -/

/-- Length (including the `#`) of the `colorTokenPattern` match starting at the
head of the text, if any. -/
def matchHexAt : List Char → Option Nat
  | '#' :: rest =>
    let r := (rest.takeWhile isHexDigitChar).length
    if 8 ≤ r then some 9
    else if 6 ≤ r then some 7
    else if 4 ≤ r then some 5
    else if r = 3 then some 4
    else none
  | _ => none

/-! ### The global-regex scanning loop

`while ((m = regex.exec(text)))` on a `/g` regex repeatedly finds the leftmost
match at or after `lastIndex` and then sets `lastIndex` to the end of the
match.  `scanWith f fuel cs i` returns the list of `(index, length, payload)`
of all matches, where `f` reports a match anchored at the head of its
argument.  Every step consumes at least one character, so with `fuel`
initialized to the text length the fuel never runs out (at fuel 0 the text is
already empty); the fuel only keeps the recursion structural. -/
def scanWith (f : List Char → Option (Nat × α)) :
    Nat → List Char → Nat → List (Nat × Nat × α)
  | 0, _, _ => []
  | _ + 1, [], _ => []
  | fuel + 1, c :: rest, i =>
    match f (c :: rest) with
    | some (len, a) => (i, len, a) :: scanWith f fuel (rest.drop (len - 1)) (i + len)
    | none => scanWith f fuel rest (i + 1)

/-- All matches of `colorTokenPattern` in the text: `(index, length, m[0])`. -/
def scanHex (cs : List Char) : List (Nat × Nat × String) :=
  scanWith (fun t => (matchHexAt t).map (fun l => (l, (t.take l).asString))) cs.length cs 0

/-! ### `cssVariablePattern`

`/var\(--(?<cssVar>[a-zA-Z0-9\-]+)\)/g` -/

/-- Match of `cssVariablePattern` at the head of the text: total length and the
captured variable name. -/
def matchCssVarAt : List Char → Option (Nat × String)
  | 'v' :: 'a' :: 'r' :: '(' :: '-' :: '-' :: rest =>
    let name := rest.takeWhile isCssNameChar
    if !name.isEmpty && (rest.drop name.length).head? = some ')' then
      some (6 + name.length + 1, name.asString)
    else none
  | _ => none

/-- All matches of `cssVariablePattern`: `(index, length, cssVar)`. -/
def scanCssVars (cs : List Char) : List (Nat × Nat × String) :=
  scanWith matchCssVarAt cs.length cs 0

/-! ### `rgbArrayPattern`

`/\{(\s*)(25[0-5]|2[0-4][0-9]|1[0-9]{2}|[1-9]?[0-9])(\s*),(\s*)(...)(\s*),(\s*)(...)(\s*)\}/g`

The integer alternation is ordered and greedy; on failure of the remainder of
the pattern the engine backtracks through the later alternatives (and through
dropping the optional `[1-9]` of the last alternative).  The `\s*` groups never
need backtracking because no following atom can match a whitespace character.
`intCandidates` lists the `(captured digits, rest)` splits the alternation can
produce, in the engine's preference order. -/

/-- `25[0-5]` -/
def intAlt1 : List Char → Option (List Char × List Char)
  | a :: b :: c :: rest =>
    if a = '2' ∧ b = '5' ∧ '0' ≤ c ∧ c ≤ '5' then some ([a, b, c], rest) else none
  | _ => none

/-- `2[0-4][0-9]` -/
def intAlt2 : List Char → Option (List Char × List Char)
  | a :: b :: c :: rest =>
    if a = '2' ∧ '0' ≤ b ∧ b ≤ '4' ∧ isDigitChar c then some ([a, b, c], rest) else none
  | _ => none

/-- `1[0-9]{2}` -/
def intAlt3 : List Char → Option (List Char × List Char)
  | a :: b :: c :: rest =>
    if a = '1' ∧ isDigitChar b ∧ isDigitChar c then some ([a, b, c], rest) else none
  | _ => none

/-- `[1-9]?[0-9]` with the optional `[1-9]` present -/
def intAlt4a : List Char → Option (List Char × List Char)
  | a :: b :: rest =>
    if '1' ≤ a ∧ a ≤ '9' ∧ isDigitChar b then some ([a, b], rest) else none
  | _ => none

/-- `[1-9]?[0-9]` with the optional `[1-9]` dropped -/
def intAlt4b : List Char → Option (List Char × List Char)
  | a :: rest => if isDigitChar a then some ([a], rest) else none
  | _ => none

/-- All splits the integer alternation can produce, in preference order. -/
def intCandidates (cs : List Char) : List (List Char × List Char) :=
  (intAlt1 cs).toList ++ (intAlt2 cs).toList ++ (intAlt3 cs).toList ++
    (intAlt4a cs).toList ++ (intAlt4b cs).toList

/-- The part of `rgbArrayPattern` after the second comma: third integer
group, optional whitespace, closing `}`.  Returns the capture and the text
after the `}`. -/
def tripletFrom3 (r9 : List Char) : Option (List Char × List Char) :=
  (intCandidates r9).findSome? fun p3 =>
    match (p3.2.dropWhile isJsWs) with
    | '}' :: r12 => some (p3.1, r12)
    | _ => none

/-- The part of `rgbArrayPattern` after the first comma: second integer group,
optional whitespace, comma, and the rest. -/
def tripletFrom2 (r5 : List Char) : Option (List Char × List Char × List Char) :=
  (intCandidates r5).findSome? fun p2 =>
    match (p2.2.dropWhile isJsWs) with
    | ',' :: r8 => (tripletFrom3 (r8.dropWhile isJsWs)).map fun q => (p2.1, q.1, q.2)
    | _ => none

/-- The part of `rgbArrayPattern` after the opening `{`: returns the three
captured digit groups (groups 2, 5, 8) and the text after the closing `}`.
The candidate lists and their `findSome?` traversal realize the engine's
ordered backtracking through the integer alternations. -/
def matchTripletAfterBrace (r0 : List Char) :
    Option (List Char × List Char × List Char × List Char) :=
  (intCandidates (r0.dropWhile isJsWs)).findSome? fun p1 =>
    match (p1.2.dropWhile isJsWs) with
    | ',' :: r4 => (tripletFrom2 (r4.dropWhile isJsWs)).map fun q => (p1.1, q.1, q.2.1, q.2.2)
    | _ => none

/-- Match of `rgbArrayPattern` at the head of the text: total length and the
three captured integer groups. -/
def matchTripletAt (cs : List Char) : Option (Nat × List Char × List Char × List Char) :=
  match cs with
  | '{' :: r0 =>
    (matchTripletAfterBrace r0).map fun q => (cs.length - q.2.2.2.length, q.1, q.2.1, q.2.2.1)
  | _ => none

/-- All matches of `rgbArrayPattern`: `(index, length, (group2, group5, group8))`. -/
def scanTriplets (cs : List Char) : List (Nat × Nat × (List Char × List Char × List Char)) :=
  scanWith (fun t => (matchTripletAt t).map fun q => (q.1, q.2)) cs.length cs 0

/-! ### `jsonKeyPattern`

`/(((?<=")(?<varDoulbeQuote>[a-zA-Z0-9-_]+)(?="\s*:))|((?<=')(?<varSingleQuote>[a-zA-Z0-9-_]+)(?='\s*:)))/g`

A key is a nonempty run of key characters whose preceding character is a quote
and which is followed (without consuming) by the same quote style, optional
whitespace and a colon.  Key characters are never quotes, so backtracking the
greedy `+` can never succeed and the run is maximal.  Only the run itself is
consumed by a match. -/

/-- The lookahead `(?=q\s*:)`. -/
def keyLookaheadOk (q : Char) (after : List Char) : Bool :=
  match after with
  | c :: rest => c = q && (rest.dropWhile isJsWs).head? = some ':'
  | [] => false

/-- `jsonKeyPattern` matches: `(index, captured name)`.  `prev` is the
character before the current position (the lookbehind), initially a dummy
non-quote character since position 0 has no preceding character.  As in
`scanWith`, the fuel (initialized to the text length) only keeps the
recursion structural and never runs out. -/
def scanKeysAux : Nat → Char → List Char → Nat → List (Nat × String)
  | 0, _, _, _ => []
  | _ + 1, _, [], _ => []
  | fuel + 1, prev, c :: rest, i =>
    if (prev = '"' ∨ prev = '\'') ∧ isKeyChar c then
      let runTail := rest.takeWhile isKeyChar
      let run := c :: runTail
      let after := rest.drop runTail.length
      if keyLookaheadOk prev after then
        (i, run.asString) :: scanKeysAux fuel (run.getLastD ' ') after (i + run.length)
      else
        scanKeysAux fuel c rest (i + 1)
    else
      scanKeysAux fuel c rest (i + 1)

/-- All matches of `jsonKeyPattern` in the text. -/
def scanKeys (cs : List Char) : List (Nat × String) :=
  scanKeysAux cs.length ' ' cs 0

/-! ### Positions and ranges

The host library (`vscode-languageserver-textdocument`) converts between
absolute offsets and `(line, character)` positions.  Line breaks are `\r\n`,
`\r`, or `\n`. -/

/-- A protocol position. -/
structure Position where
  line : Nat
  character : Nat
deriving DecidableEq, Repr

/-- A protocol range (`Range` of `vscode-languageserver`). -/
structure LspRange where
  start : Position
  stop : Position
deriving DecidableEq, Repr

/-- Offsets at which lines after the first begin (handling `\r\n` as one
break), as in the host's `computeLineOffsets`. -/
def lineOffsetsAux : List Char → Nat → List Nat
  | [], _ => []
  | '\r' :: '\n' :: rest, i => (i + 2) :: lineOffsetsAux rest (i + 2)
  | '\r' :: rest, i => (i + 1) :: lineOffsetsAux rest (i + 1)
  | '\n' :: rest, i => (i + 1) :: lineOffsetsAux rest (i + 1)
  | _ :: rest, i => lineOffsetsAux rest (i + 1)

/-- Start offsets of all lines of the text. -/
def lineOffsets (cs : List Char) : List Nat :=
  0 :: lineOffsetsAux cs 0

/-- Walk the (strictly increasing) tail of line-start offsets to find the line
containing `off`. -/
def findPositionAux : List Nat → Nat → Nat → Nat → Position
  | [], off, line, lineStart => ⟨line, off - lineStart⟩
  | o :: rest, off, line, lineStart =>
    if o ≤ off then findPositionAux rest off (line + 1) o
    else ⟨line, off - lineStart⟩

/-- The host's `TextDocument.positionAt`: clamp the offset and locate the last
line start at or before it. -/
def positionAt (cs : List Char) (offset : Nat) : Position :=
  findPositionAux (lineOffsetsAux cs 0) (min offset cs.length) 0 0

/-- The host's `TextDocument.offsetAt`: a line beyond the last maps to the text
length; a character beyond the end of its line is clamped to the next line
start. -/
def offsetAt (cs : List Char) (pos : Position) : Nat :=
  match (lineOffsets cs)[pos.line]? with
  | none => cs.length
  | some lo =>
    let next := ((lineOffsets cs)[pos.line + 1]?).getD cs.length
    min (lo + pos.character) next

/-- The range `[s, e)` of the text, as positions. -/
def mkRange (cs : List Char) (s e : Nat) : LspRange :=
  ⟨positionAt cs s, positionAt cs e⟩

/-! ### The color codec (`parseColor`, `stringifyColor`, `colorToRgbArray`)

Color components are JavaScript numbers; every value arising here is an exact
rational (`parseInt(-, 16) / 255` and `Math.floor(v * 255)`), and over this
domain IEEE-double evaluation is exact-in-result, so the components are
modelled as `ℚ`. -/

/-- `Color` of `vscode-languageserver`: normalized rgba components. -/
structure Color where
  red : ℚ
  green : ℚ
  blue : ℚ
  alpha : ℚ
deriving DecidableEq, Repr

/-- JavaScript `n.toString(16)` for an integral number, lowercase. -/
def intToHexChars (n : ℤ) : List Char :=
  if n < 0 then '-' :: Nat.toDigits 16 n.natAbs else Nat.toDigits 16 n.toNat

/-- JavaScript `${n}` / `n.toString()` for an integral number. -/
def intToDecChars (n : ℤ) : List Char :=
  if n < 0 then '-' :: Nat.toDigits 10 n.natAbs else Nat.toDigits 10 n.toNat

/-- `valueToCode` inside `stringifyColor`: `Math.floor(val * 255).toString(16)`
left-padded with `"0"` to two characters when of length 1. -/
def valueToCode (val : ℚ) : List Char :=
  let ds := intToHexChars ⌊val * 255⌋
  if ds.length = 1 then '0' :: ds else ds

/-- `convertShortHexCodeToFullHexCode`: drop the `#`, duplicate every digit,
put the `#` back. -/
def convertShortHexCodeToFullHexCode (cs : List Char) : List Char :=
  '#' :: (cs.drop 1).flatMap (fun c => [c, c])

/-- `parseColor`: expand a short form (length < 6), then decode the byte pairs
at 1–3, 3–5, 5–7, and the alpha pair at 7–9 when the length is exactly 9. -/
def parseColor (s : String) : Color :=
  let cs := s.toList
  let cs := if cs.length < 6 then convertShortHexCodeToFullHexCode cs else cs
  { red := (parseIntHex ((cs.drop 1).take 2) : ℚ) / 255
    green := (parseIntHex ((cs.drop 3).take 2) : ℚ) / 255
    blue := (parseIntHex ((cs.drop 5).take 2) : ℚ) / 255
    alpha := if cs.length = 9 then (parseIntHex ((cs.drop 7).take 2) : ℚ) / 255 else 1 }

/-- `stringifyColor`: hex-encode the rgb bytes, append the alpha byte only when
`alpha < 1.0`, then case-fold the whole string per the casing setting. -/
def stringifyColor (color : Color) (casing : String) : String :=
  let body := '#' :: (valueToCode color.red ++ valueToCode color.green ++ valueToCode color.blue
    ++ (if color.alpha < 1 then valueToCode color.alpha else []))
  if casing = "Lowercase" then (body.map Char.toLower).asString
  else (body.map Char.toUpper).asString

/-- `colorToRgbArray`: render `{r,g,b}` with the floored byte values, no
padding, no alpha. -/
def colorToRgbArray (color : Color) : String :=
  ('{' :: (intToDecChars ⌊color.red * 255⌋ ++ ',' :: intToDecChars ⌊color.green * 255⌋
    ++ ',' :: intToDecChars ⌊color.blue * 255⌋ ++ ['}'])).asString

/-- JavaScript `s.padStart(2, '0')`. -/
def padStart2 (ds : List Char) : List Char :=
  if ds.length < 2 then List.replicate (2 - ds.length) '0' ++ ds else ds

/-- The hex string built for a triplet match in `findColorTokens`:
``#${r.toString(16).padStart(2, '0')}...``. -/
def tripletHexColor (r g b : Nat) : String :=
  ('#' :: (padStart2 (intToHexChars (r : ℤ)) ++ padStart2 (intToHexChars (g : ℤ))
    ++ padStart2 (intToHexChars (b : ℤ)))).asString

/-- The decoding a triplet match undergoes in the program: the captured digit
groups are read with `parseInt(-, 10)`, rendered as a hex color in
`findColorTokens`, and that hex color is decoded by `parseColor` when the
color-information request converts tokens to normalized colors (alpha 1.0). -/
def decodeTriplet (s : String) : Option Color :=
  (matchTripletAt s.toList).map fun q =>
    parseColor (tripletHexColor (parseIntDec q.2.1) (parseIntDec q.2.2.1) (parseIntDec q.2.2.2))

/-! ### JavaScript objects as ordered association lists -/

/-- First-occurrence association lookup (`obj[key]` with unique keys). -/
def assocFind (l : List (String × α)) (k : String) : Option α :=
  (l.find? fun p => p.1 = k).map (·.2)

/-- JavaScript property assignment `obj[key] = v`: an existing key keeps its
position and gets the new value, a new key is appended.  (Keys are unique in
every list this is applied to, so replacing the first occurrence in place is
exactly the object semantics.) -/
def objSet (l : List (String × α)) (k : String) (v : α) : List (String × α) :=
  match l with
  | [] => [(k, v)]
  | p :: t => if p.1 = k then (k, v) :: t else p :: objSet t k v

/-! ### `JSON.parse`

A structural model of the host's `JSON.parse`.  The numeric value of a number
literal is never consumed by the program (only `typeof v === "string"` values
are), so numbers keep their lexeme.  `\uXXXX` escapes outside the scalar range
map through `Char.ofNat`'s default; no claim exercises lone surrogates. -/

/-- A parsed JSON value. -/
inductive JsonValue where
  | null : JsonValue
  | bool (b : Bool) : JsonValue
  | num (lexeme : String) : JsonValue
  | str (s : String) : JsonValue
  | arr (elems : List JsonValue) : JsonValue
  | obj (fields : List (String × JsonValue)) : JsonValue
deriving Repr

/-- JSON whitespace (space, tab, line feed, carriage return). -/
def skipJWs (cs : List Char) : List Char :=
  cs.dropWhile fun c => c = ' ' || c = '\t' || c = '\n' || c = '\r'

/-- Body of a JSON string after the opening quote: decoded characters and the
text after the closing quote.  Raw control characters are rejected. -/
def parseJStringAux : List Char → Option (List Char × List Char)
  | '"' :: rest => some ([], rest)
  | '\\' :: 'u' :: a :: b :: c :: d :: rest =>
    if isHexDigitChar a ∧ isHexDigitChar b ∧ isHexDigitChar c ∧ isHexDigitChar d then
      (parseJStringAux rest).map fun p =>
        (Char.ofNat (parseIntHex [a, b, c, d]) :: p.1, p.2)
    else none
  | '\\' :: e :: rest =>
    let dec : Option Char :=
      if e = '"' then some '"'
      else if e = '\\' then some '\\'
      else if e = '/' then some '/'
      else if e = 'b' then some '\x08'
      else if e = 'f' then some '\x0c'
      else if e = 'n' then some '\n'
      else if e = 'r' then some '\r'
      else if e = 't' then some '\t'
      else none
    match dec with
    | some c => (parseJStringAux rest).map fun p => (c :: p.1, p.2)
    | none => none
  | c :: rest =>
    if c.toNat < 0x20 then none
    else (parseJStringAux rest).map fun p => (c :: p.1, p.2)
  | [] => none

/-- Lexes a JSON number (`-? int frac? exp?`); a malformed trailing part is
left in the rest, where the surrounding grammar then fails, matching the
host's parse error. -/
def lexJNumber (cs : List Char) : Option (List Char × List Char) :=
  let sign : List Char × List Char :=
    match cs with
    | '-' :: rest => (['-'], rest)
    | _ => ([], cs)
  let intPart : Option (List Char × List Char) :=
    match sign.2 with
    | '0' :: rest => some (['0'], rest)
    | c :: rest =>
      if '1' ≤ c ∧ c ≤ '9' then
        some (c :: rest.takeWhile isDigitChar, rest.dropWhile isDigitChar)
      else none
    | [] => none
  match intPart with
  | none => none
  | some (ip, r1) =>
    let frac : List Char × List Char :=
      match r1 with
      | '.' :: r2 =>
        let ds := r2.takeWhile isDigitChar
        if ds.isEmpty then ([], r1) else ('.' :: ds, r2.dropWhile isDigitChar)
      | _ => ([], r1)
    let r3 := frac.2
    let expPart : List Char × List Char :=
      match r3 with
      | e :: r4 =>
        if e = 'e' ∨ e = 'E' then
          let (sgn, r5) : List Char × List Char :=
            match r4 with
            | '+' :: r5 => (['+'], r5)
            | '-' :: r5 => (['-'], r5)
            | _ => ([], r4)
          let ds := r5.takeWhile isDigitChar
          if ds.isEmpty then ([], r3) else (e :: sgn ++ ds, r5.dropWhile isDigitChar)
        else ([], r3)
      | [] => ([], r3)
    some (sign.1 ++ ip ++ frac.1 ++ expPart.1, expPart.2)

mutual

/-- Parses one JSON value (leading whitespace allowed).  The fuel only bounds
recursion depth; every recursive call is preceded by consuming at least one
character, so the generous fuel chosen in `jsonParse` never runs out on any
input. -/
def parseJValue : Nat → List Char → Option (JsonValue × List Char)
  | 0, _ => none
  | fuel + 1, cs =>
    match skipJWs cs with
    | '{' :: rest =>
      match skipJWs rest with
      | '}' :: r2 => some (JsonValue.obj [], r2)
      | r2 => parseJMembers fuel r2 []
    | '[' :: rest =>
      match skipJWs rest with
      | ']' :: r2 => some (JsonValue.arr [], r2)
      | r2 => parseJElements fuel r2 []
    | '"' :: rest => (parseJStringAux rest).map fun p => (JsonValue.str p.1.asString, p.2)
    | 't' :: 'r' :: 'u' :: 'e' :: rest => some (JsonValue.bool true, rest)
    | 'f' :: 'a' :: 'l' :: 's' :: 'e' :: rest => some (JsonValue.bool false, rest)
    | 'n' :: 'u' :: 'l' :: 'l' :: rest => some (JsonValue.null, rest)
    | other => (lexJNumber other).map fun p => (JsonValue.num p.1.asString, p.2)

/-- Parses the members of an object after at least one member is known to
follow; duplicate keys overwrite in place as in a JavaScript object. -/
def parseJMembers : Nat → List Char → List (String × JsonValue) →
    Option (JsonValue × List Char)
  | 0, _, _ => none
  | fuel + 1, cs, acc =>
    match cs with
    | '"' :: rest =>
      match parseJStringAux rest with
      | none => none
      | some (key, r1) =>
        match skipJWs r1 with
        | ':' :: r2 =>
          match parseJValue fuel r2 with
          | none => none
          | some (v, r3) =>
            let acc := objSet acc key.asString v
            match skipJWs r3 with
            | ',' :: r4 => parseJMembers fuel (skipJWs r4) acc
            | '}' :: r4 => some (JsonValue.obj acc, r4)
            | _ => none
        | _ => none
    | _ => none

/-- Parses the elements of an array after at least one element is known to
follow. -/
def parseJElements : Nat → List Char → List JsonValue → Option (JsonValue × List Char)
  | 0, _, _ => none
  | fuel + 1, cs, acc =>
    match parseJValue fuel cs with
    | none => none
    | some (v, r1) =>
      match skipJWs r1 with
      | ',' :: r2 => parseJElements fuel r2 (acc ++ [v])
      | ']' :: r2 => some (JsonValue.arr (acc ++ [v]), r2)
      | _ => none

end

/-- The host's `JSON.parse`: one value, then only trailing whitespace.
Returns `none` where `JSON.parse` throws. -/
def jsonParse (s : String) : Option JsonValue :=
  let cs := s.toList
  match parseJValue (4 * cs.length + 16) cs with
  | some (v, rest) => if skipJWs rest = [] then some v else none
  | none => none

/-- A canonical JavaScript array index (`"0"`, or digits with no leading
zero): only such strings access array elements via `arr[name]`. -/
def canonicalIndex (name : String) : Option Nat :=
  match name.toList with
  | ['0'] => some 0
  | c :: rest =>
    if '1' ≤ c ∧ c ≤ '9' ∧ rest.all isDigitChar then some (parseIntDec (c :: rest))
    else none
  | [] => none

/-- The dynamic property read `jsonObj[variableName]` performed by
`updateColorTokenCache`: own properties of objects, index properties of
arrays.  Primitive values have no own properties whose value could be a
string (a string's index properties are single characters, and no document
text that parses to a top-level string can produce a key match, since its
inner quotes are escaped). -/
def jsLookup (v : JsonValue) (name : String) : Option JsonValue :=
  match v with
  | JsonValue.obj fields => assocFind fields name
  | JsonValue.arr elems => (canonicalIndex name).bind fun i => elems[i]?
  | _ => none

/-! ### Settings, documents and the token cache -/

/-- `JSONColorTokenSettings` (server `constants.ts`). -/
structure JSONColorTokenSettings where
  maxNumberOfColorTokens : Nat
  colorTokenCasing : String
  languages : List String
  cssLanguages : List String
deriving DecidableEq, Repr

/-- `defaultSettings` (server `constants.ts`). -/
def defaultSettings : JSONColorTokenSettings :=
  { maxNumberOfColorTokens := 1000
    colorTokenCasing := "Uppercase"
    languages := ["json", "jsonc", "cpp", "c++"]
    cssLanguages := ["css", "less"] }

/-- A text document as supplied by the host: uri, language id, full text. -/
structure TextDocument where
  uri : String
  languageId : String
  text : String
deriving DecidableEq, Repr

/-- `isColorLanguage`: not a css language (colliding ids count as css) and
listed in `languages`.  The settings parameter stands for the process-wide
cached configuration. -/
def isColorLanguage (s : JSONColorTokenSettings) (languageId : String) : Bool :=
  !(s.cssLanguages.contains languageId) && s.languages.contains languageId

/-- `isCSSLanguage`. -/
def isCSSLanguage (s : JSONColorTokenSettings) (languageId : String) : Bool :=
  s.cssLanguages.contains languageId

/-- A cached color variable: the textual color value and the source range of
the defining key. -/
structure CachedVariable where
  color : String
  range : LspRange
deriving DecidableEq, Repr

/-- `colorTokenCache`: documentUri → variable → CachedVariable, both levels in
JavaScript-object insertion order. -/
abbrev TokenCache := List (String × List (String × CachedVariable))

/-- `isColorToken`: true exactly for string values on which a fresh
`colorTokenPattern` regex `test` succeeds, i.e. strings containing a hex token
match anywhere. -/
def isColorToken (v : Option JsonValue) : Bool :=
  match v with
  | some (JsonValue.str s) => !(scanHex s.toList).isEmpty
  | _ => false

/-- The string payload of a value that passed `isColorToken` (always a
string there; the default is never reached). -/
def jsonStringValue (v : Option JsonValue) : String :=
  match v with
  | some (JsonValue.str s) => s
  | _ => ""

/-- One iteration of the `while` loop of `updateColorTokenCache`: a match
whose name reads back from the parsed value as a color-token string records
the value and the key's source range. -/
def buildStep (text : List Char) (jsonObj : JsonValue)
    (acc : List (String × CachedVariable)) (m : Nat × String) :
    List (String × CachedVariable) :=
  if isColorToken (jsLookup jsonObj m.2) then
    objSet acc m.2
      { color := jsonStringValue (jsLookup jsonObj m.2)
        range := mkRange text m.1 (m.1 + m.2.length) }
  else acc

/-- The `colorTokenObj` built by `updateColorTokenCache` from a successfully
parsed document: the loop over all `jsonKeyPattern` matches. -/
def buildColorTokenObj (text : List Char) (jsonObj : JsonValue) :
    List (String × CachedVariable) :=
  (scanKeys text).foldl (buildStep text jsonObj) []

/-- `updateColorTokenCache`: only color-language documents are processed; only
json/jsonc documents are parsed; a parse failure is swallowed, leaving the
cache untouched; on success the document's entry is replaced wholesale. -/
def updateColorTokenCache (s : JSONColorTokenSettings) (cache : TokenCache)
    (doc : TextDocument) : TokenCache :=
  if isColorLanguage s doc.languageId then
    if doc.languageId = "json" ∨ doc.languageId = "jsonc" then
      match jsonParse doc.text with
      | some jsonObj => objSet cache doc.uri (buildColorTokenObj doc.text.toList jsonObj)
      | none => cache
    else cache
  else cache

/-! ### The detection engine (`findColorTokens`) -/

/-- `IColors` (the shape pushed by `findColorTokens`): a textual color and its
source range. -/
structure IColors where
  range : LspRange
  color : String
deriving DecidableEq, Repr

/-- One of the two capped `while`-loops of `findColorTokens`: `exec` yields the
next match, then the `numTokens < maxNumberOfColorTokens` test is evaluated;
each processed match increments the shared counter and pushes one token. -/
def cappedLoop (mk : Nat → Nat → α → IColors) (maxN : Nat) :
    List (Nat × Nat × α) → Nat → List IColors × Nat
  | [], n => ([], n)
  | m :: ms, n =>
    if n < maxN then
      let rec_ := cappedLoop mk maxN ms (n + 1)
      (mk m.1 m.2.1 m.2.2 :: rec_.1, rec_.2)
    else ([], n)

/-- `Object.keys(colorTokenCache).find(uri => !!colorTokenCache[uri][name])`
followed by the lookup of the found entry: the first document (in cache
insertion order) caching `name`, with its cached variable. -/
def lookupVariable (cache : TokenCache) (name : String) : Option CachedVariable :=
  cache.findSome? fun en => assocFind en.2 name

/-- The uncapped `while`-loop over css variable references: a cached name
pushes one token with the cached color at the reference's own range; an
uncached name is skipped. -/
def cssLoop (cache : TokenCache) (text : List Char) :
    List (Nat × Nat × String) → List IColors
  | [] => []
  | m :: ms =>
    match lookupVariable cache m.2.2 with
    | some cv => ⟨mkRange text m.1 (m.1 + m.2.1), cv.color⟩ :: cssLoop cache text ms
    | none => cssLoop cache text ms

/-- The token pushed for a hex match: the matched substring at its range. -/
def hexTokenMk (text : List Char) : Nat → Nat → String → IColors :=
  fun i len tok => ⟨mkRange text i (i + len), tok⟩

/-- The token pushed for a triplet match: the captured integers re-rendered as
an internal hex color, at the whole match's range. -/
def tripletTokenMk (text : List Char) :
    Nat → Nat → (List Char × List Char × List Char) → IColors :=
  fun i len caps =>
    ⟨mkRange text i (i + len),
      tripletHexColor (parseIntDec caps.1) (parseIntDec caps.2.1) (parseIntDec caps.2.2)⟩

/-- `findColorTokens`: the token list together with the list of payloads of
`maxNumberOfColorTokens` advisory notifications sent during the call. -/
def findColorTokens (s : JSONColorTokenSettings) (cache : TokenCache)
    (doc : TextDocument) : List IColors × List Nat :=
  let text := doc.text.toList
  let maxN := s.maxNumberOfColorTokens
  if isColorLanguage s doc.languageId then
    let hexPart := cappedLoop (hexTokenMk text) maxN (scanHex text) 0
    let tripletPart :=
      if doc.languageId = "cpp" ∨ doc.languageId = "c++" then
        cappedLoop (tripletTokenMk text) maxN (scanTriplets text) hexPart.2
      else ([], hexPart.2)
    let notifications := if tripletPart.2 = maxN then [maxN] else []
    (hexPart.1 ++ tripletPart.1, notifications)
  else if isCSSLanguage s doc.languageId then
    (cssLoop cache text (scanCssVars text), [])
  else ([], [])

/-! ### The definition request (`connection.onDefinition`) -/

/-- One element of a `Definition` result. -/
structure Location where
  uri : String
  range : LspRange
deriving DecidableEq, Repr

/-- The `getText` call of the definition handler: the whole text of the given
line, from its first character to the start of the next line. -/
def lineTextAt (text : List Char) (line : Nat) : List Char :=
  let b := offsetAt text ⟨line, 0⟩
  let e := offsetAt text ⟨line + 1, 0⟩
  (text.drop b).take (e - b)

/-- `connection.onDefinition`: `none` models an `undefined` reply.  For a css
document, the text of the whole line containing the position is extracted via
`getText`, the first `var(--name)` on it (if any) is looked up, and every
document caching that name contributes its definition range (the code filters
the cached uris and maps each to its cached entry, which is the same
`filterMap`). -/
def onDefinition (s : JSONColorTokenSettings) (cache : TokenCache)
    (documents : List TextDocument) (uri : String) (pos : Position) :
    Option (List Location) :=
  match documents.find? (fun d => d.uri = uri) with
  | none => none
  | some doc =>
    if isCSSLanguage s doc.languageId then
      match (scanCssVars (lineTextAt doc.text.toList pos.line)).head? with
      | some m =>
        some (cache.filterMap fun en =>
          (assocFind en.2 m.2.2).map fun cv => Location.mk en.1 cv.range)
      | none => none
    else none

/-! ## Auxiliary facts -/

/-- The two-character hex rendering of a byte value, on the `Nat` side. -/
def natByteCode (n : Nat) : List Char :=
  if (Nat.toDigits 16 n).length = 1 then '0' :: Nat.toDigits 16 n else Nat.toDigits 16 n

theorem valueToCode_natDiv (n : ℕ) : valueToCode ((n : ℚ) / 255) = natByteCode n := by
  have h : ((n : ℚ) / 255) * 255 = (n : ℚ) := div_mul_cancel₀ _ (by norm_num)
  have h2 : ((n : ℤ) < 0) = False := by simp
  simp only [valueToCode, intToHexChars, h, Int.floor_natCast, h2, if_false,
    Int.toNat_natCast, natByteCode]

theorem natByteCode_spec : ∀ n : ℕ, n < 256 →
    (natByteCode n).length = 2 ∧
    parseIntHex (natByteCode n) = n ∧
    parseIntHex ((natByteCode n).map Char.toUpper) = n ∧
    parseIntHex ((natByteCode n).map Char.toLower) = n := by
  set_option maxRecDepth 8000 in decide

theorem padStart2_intToHexChars (n : ℕ) (h : n < 256) :
    padStart2 (intToHexChars (n : ℤ)) = natByteCode n := by
  revert h
  revert n
  set_option maxRecDepth 8000 in decide

theorem intToDecChars_natCast (n : ℕ) : intToDecChars (n : ℤ) = Nat.toDigits 10 n := by
  simp [intToDecChars]

/-! ### Association list facts -/

theorem assocFind_cons (p : String × α) (t : List (String × α)) (k : String) :
    assocFind (p :: t) k = if p.1 = k then some p.2 else assocFind t k := by
  by_cases h : p.1 = k
  · simp [assocFind, List.find?_cons_of_pos, h]
  · simp [assocFind, List.find?_cons_of_neg, h]

theorem assocFind_objSet_self (l : List (String × α)) (k : String) (v : α) :
    assocFind (objSet l k v) k = some v := by
  induction l with
  | nil => simp [objSet, assocFind_cons]
  | cons p t ih =>
    by_cases h : p.1 = k
    · simp [objSet, h, assocFind_cons]
    · simp [objSet, h, assocFind_cons, ih]

theorem assocFind_objSet_ne (l : List (String × α)) (k k' : String) (v : α)
    (h : k' ≠ k) : assocFind (objSet l k v) k' = assocFind l k' := by
  induction l with
  | nil => simp [objSet, assocFind_cons, assocFind, Ne.symm h]
  | cons p t ih =>
    by_cases hp : p.1 = k
    · simp [objSet, hp, assocFind_cons, Ne.symm h]
    · simp only [objSet, hp, if_false, assocFind_cons, ih]

/-! ### Facts about the capped loops -/

theorem cappedLoop_snd (mk : Nat → Nat → α → IColors) (maxN : Nat) :
    ∀ (ms : List (Nat × Nat × α)) (n : Nat),
      (cappedLoop mk maxN ms n).2 = n + (cappedLoop mk maxN ms n).1.length := by
  intro ms
  induction ms with
  | nil => intro n; simp [cappedLoop]
  | cons m t ih =>
    intro n
    by_cases h : n < maxN
    · simp only [cappedLoop, h, if_true, List.length_cons]
      rw [ih (n + 1)]
      omega
    · simp [cappedLoop, h]

theorem cappedLoop_length_le (mk : Nat → Nat → α → IColors) (maxN : Nat) :
    ∀ (ms : List (Nat × Nat × α)) (n : Nat),
      (cappedLoop mk maxN ms n).1.length ≤ maxN - n := by
  intro ms
  induction ms with
  | nil => intro n; simp [cappedLoop]
  | cons m t ih =>
    intro n
    by_cases h : n < maxN
    · simp only [cappedLoop, h, if_true, List.length_cons]
      have := ih (n + 1)
      omega
    · simp [cappedLoop, h]

theorem cappedLoop_length_full (mk : Nat → Nat → α → IColors) (maxN : Nat) :
    ∀ (ms : List (Nat × Nat × α)) (n : Nat), n ≤ maxN → maxN - n ≤ ms.length →
      (cappedLoop mk maxN ms n).1.length = maxN - n := by
  intro ms
  induction ms with
  | nil => intro n h1 h2; simp at h2 ⊢; simp [cappedLoop]; omega
  | cons m t ih =>
    intro n h1 h2
    by_cases h : n < maxN
    · simp only [cappedLoop, h, if_true, List.length_cons]
      have := ih (n + 1) (by omega) (by simp at h2; omega)
      omega
    · simp [cappedLoop, h]
      omega

theorem cappedLoop_at_max (mk : Nat → Nat → α → IColors) (maxN : Nat)
    (ms : List (Nat × Nat × α)) : cappedLoop mk maxN ms maxN = ([], maxN) := by
  cases ms with
  | nil => rfl
  | cons m t => simp [cappedLoop]

/-! ### Facts about the cache-building fold -/

theorem isColorToken_iff (v : Option JsonValue) :
    isColorToken v = true ↔
      ∃ s, v = some (JsonValue.str s) ∧ (scanHex s.toList).isEmpty = false := by
  cases v with
  | none => simp [isColorToken]
  | some j =>
    cases j with
    | str s => simp [isColorToken]
    | null => simp [isColorToken]
    | bool b => simp [isColorToken]
    | num l => simp [isColorToken]
    | arr es => simp [isColorToken]
    | obj fs => simp [isColorToken]

theorem buildFold_persist (text : List Char) (jsonObj : JsonValue) (name : String) :
    ∀ (ms : List (Nat × String)) (acc : List (String × CachedVariable)),
      (assocFind acc name).isSome →
      (assocFind (ms.foldl (buildStep text jsonObj) acc) name).isSome := by
  intro ms
  induction ms with
  | nil => intro acc h; simpa using h
  | cons m t ih =>
    intro acc h
    rw [List.foldl_cons]
    refine ih _ ?_
    unfold buildStep
    by_cases hc : isColorToken (jsLookup jsonObj m.2) = true
    · rw [if_pos hc]
      by_cases he : m.2 = name
      · subst he; rw [assocFind_objSet_self]; simp
      · rw [assocFind_objSet_ne _ _ _ _ (Ne.symm he)]; exact h
    · rw [if_neg hc]; exact h

theorem buildFold_find_spec (text : List Char) (jsonObj : JsonValue) (name : String)
    (cv : CachedVariable) :
    ∀ (ms : List (Nat × String)) (acc : List (String × CachedVariable)),
      assocFind (ms.foldl (buildStep text jsonObj) acc) name = some cv →
      assocFind acc name = some cv ∨
        ((∃ i, (i, name) ∈ ms) ∧ isColorToken (jsLookup jsonObj name) = true ∧
          cv.color = jsonStringValue (jsLookup jsonObj name)) := by
  intro ms
  induction ms with
  | nil => intro acc h; exact Or.inl (by simpa using h)
  | cons m t ih =>
    intro acc h
    rw [List.foldl_cons] at h
    rcases ih _ h with h' | h'
    · unfold buildStep at h'
      by_cases hc : isColorToken (jsLookup jsonObj m.2) = true
      · rw [if_pos hc] at h'
        by_cases he : m.2 = name
        · subst he
          rw [assocFind_objSet_self] at h'
          refine Or.inr ⟨⟨m.1, by simp⟩, hc, ?_⟩
          cases h'; rfl
        · rw [assocFind_objSet_ne _ _ _ _ (Ne.symm he)] at h'
          exact Or.inl h'
      · rw [if_neg hc] at h'
        exact Or.inl h'
    · exact Or.inr ⟨⟨h'.1.choose, List.mem_cons_of_mem _ h'.1.choose_spec⟩, h'.2⟩

theorem buildFold_find_of_mem (text : List Char) (jsonObj : JsonValue) (name : String) :
    ∀ (ms : List (Nat × String)) (acc : List (String × CachedVariable)),
      (∃ i, (i, name) ∈ ms) → isColorToken (jsLookup jsonObj name) = true →
      (assocFind (ms.foldl (buildStep text jsonObj) acc) name).isSome := by
  intro ms
  induction ms with
  | nil => intro acc h _; exact absurd h.choose_spec (List.not_mem_nil _)
  | cons m t ih =>
    intro acc h hc
    rw [List.foldl_cons]
    rcases h with ⟨i, hi⟩
    rcases List.mem_cons.mp hi with he | ht
    · have hm2 : m.2 = name := by rw [← he]
      refine buildFold_persist _ _ _ _ _ ?_
      unfold buildStep
      rw [hm2, if_pos hc, assocFind_objSet_self]
      simp
    · exact ih _ ⟨i, ht⟩ hc

/-- Membership in the built `colorTokenObj`, characterized: a name is recorded
iff it is a `jsonKeyPattern` match and the parsed value at that name passes
`isColorToken`. -/
theorem buildColorTokenObj_mem_iff (text : List Char) (jsonObj : JsonValue)
    (name : String) :
    (assocFind (buildColorTokenObj text jsonObj) name).isSome = true ↔
      (∃ i, (i, name) ∈ scanKeys text) ∧
        isColorToken (jsLookup jsonObj name) = true := by
  constructor
  · intro h
    rw [Option.isSome_iff_exists] at h
    obtain ⟨cv, hcv⟩ := h
    rcases buildFold_find_spec text jsonObj name cv (scanKeys text) [] hcv with h' | h'
    · simp [assocFind] at h'
    · exact ⟨h'.1, h'.2.1⟩
  · intro ⟨h1, h2⟩
    exact buildFold_find_of_mem text jsonObj name (scanKeys text) [] h1 h2

/-! ### Shape of `parseColor` on a well-formed full hex string -/

theorem parseColor_shape (c0 : Char) (u v w A : List Char)
    (hu : u.length = 2) (hv : v.length = 2) (hw : w.length = 2)
    (hA : A = [] ∨ A.length = 2) :
    parseColor ((c0 :: (u ++ v ++ w ++ A)).asString) =
      { red := (parseIntHex u : ℚ) / 255
        green := (parseIntHex v : ℚ) / 255
        blue := (parseIntHex w : ℚ) / 255
        alpha := if A.length = 2 then (parseIntHex A : ℚ) / 255 else 1 } := by
  have hAlen : A.length = 0 ∨ A.length = 2 := by
    rcases hA with h | h
    · left; simp [h]
    · right; exact h
  have hlist : (c0 :: (u ++ v ++ w ++ A)).asString.toList = c0 :: (u ++ v ++ w ++ A) := rfl
  have hlen : (c0 :: (u ++ v ++ w ++ A)).length = 7 + A.length := by
    simp [hu, hv, hw]; omega
  have hnotshort : ¬ (c0 :: (u ++ v ++ w ++ A)).length < 6 := by omega
  simp only [parseColor, hlist]
  rw [if_neg hnotshort]
  have assoc : u ++ v ++ w ++ A = u ++ (v ++ (w ++ A)) := by
    simp [List.append_assoc]
  have hdrop1 : (c0 :: (u ++ v ++ w ++ A)).drop 1 = u ++ (v ++ (w ++ A)) := by
    rw [List.drop_one, List.tail_cons, assoc]
  have hdrop3 : (c0 :: (u ++ v ++ w ++ A)).drop 3 = v ++ (w ++ A) := by
    have h3 : (3 : Nat) = 1 + 2 := rfl
    rw [h3, ← List.drop_drop, hdrop1, List.drop_left' hu]
  have hdrop5 : (c0 :: (u ++ v ++ w ++ A)).drop 5 = w ++ A := by
    have h5 : (5 : Nat) = 3 + 2 := rfl
    rw [h5, ← List.drop_drop, hdrop3, List.drop_left' hv]
  have hdrop7 : (c0 :: (u ++ v ++ w ++ A)).drop 7 = A := by
    have h7 : (7 : Nat) = 5 + 2 := rfl
    rw [h7, ← List.drop_drop, hdrop5, List.drop_left' hw]
  rw [hdrop1, hdrop3, hdrop5, hdrop7, List.take_left' hu, List.take_left' hv,
    List.take_left' hw, List.take_of_length_le (by omega), hlen]
  rcases hAlen with h0 | h2
  · rw [if_neg (by omega), if_neg (by omega)]
  · rw [if_pos (by omega), if_pos h2]

/-- Core of the encode/decode round-trip, for an arbitrary case-folding
function `f` under which byte codes still decode correctly (`Char.toUpper`
and `Char.toLower` both qualify). -/
theorem parse_stringify_core (f : Char → Char)
    (hf : ∀ n : ℕ, n < 256 → parseIntHex ((natByteCode n).map f) = n)
    (i j k : ℕ) (a : ℚ)
    (hi : i ≤ 255) (hj : j ≤ 255) (hk : k ≤ 255)
    (ha : a = 1 ∨ ∃ m : ℕ, m < 255 ∧ a = (m : ℚ) / 255) :
    parseColor ((('#' :: (valueToCode ((i : ℚ) / 255) ++ valueToCode ((j : ℚ) / 255)
        ++ valueToCode ((k : ℚ) / 255)
        ++ (if a < 1 then valueToCode a else []))).map f).asString) =
      { red := (i : ℚ) / 255, green := (j : ℚ) / 255, blue := (k : ℚ) / 255,
        alpha := a } := by
  have li : ((natByteCode i).map f).length = 2 := by
    rw [List.length_map]; exact (natByteCode_spec i (by omega)).1
  have lj : ((natByteCode j).map f).length = 2 := by
    rw [List.length_map]; exact (natByteCode_spec j (by omega)).1
  have lk : ((natByteCode k).map f).length = 2 := by
    rw [List.length_map]; exact (natByteCode_spec k (by omega)).1
  rcases ha with ha1 | ⟨m, hm, ham⟩
  · have hAnil : (if a < 1 then valueToCode a else []) = [] := by
      rw [ha1, if_neg (lt_irrefl 1)]
    rw [hAnil, valueToCode_natDiv, valueToCode_natDiv, valueToCode_natDiv]
    rw [show ('#' :: ((natByteCode i) ++ (natByteCode j) ++ (natByteCode k) ++ [])).map f
        = f '#' :: (((natByteCode i).map f) ++ ((natByteCode j).map f)
          ++ ((natByteCode k).map f) ++ []) from by simp]
    rw [parseColor_shape (f '#') _ _ _ [] li lj lk (Or.inl rfl)]
    rw [hf i (by omega), hf j (by omega), hf k (by omega)]
    simp [ha1]
  · have hlt : a < 1 := by
      rw [ham, div_lt_one (by norm_num : (0 : ℚ) < 255)]
      exact_mod_cast hm
    have hA : (if a < 1 then valueToCode a else []) = natByteCode m := by
      rw [if_pos hlt, ham, valueToCode_natDiv]
    have lm : ((natByteCode m).map f).length = 2 := by
      rw [List.length_map]; exact (natByteCode_spec m (by omega)).1
    rw [hA, valueToCode_natDiv, valueToCode_natDiv, valueToCode_natDiv]
    rw [show ('#' :: ((natByteCode i) ++ (natByteCode j) ++ (natByteCode k)
        ++ (natByteCode m))).map f
        = f '#' :: (((natByteCode i).map f) ++ ((natByteCode j).map f)
          ++ ((natByteCode k).map f) ++ ((natByteCode m).map f)) from by simp]
    rw [parseColor_shape (f '#') _ _ _ _ li lj lk (Or.inr lm)]
    rw [hf i (by omega), hf j (by omega), hf k (by omega)]
    rw [if_pos lm, hf m (by omega), ham]

/-! ### The css reference loop as a `filterMap` -/

theorem cssLoop_eq_filterMap (cache : TokenCache) (text : List Char) :
    ∀ ms : List (Nat × Nat × String),
      cssLoop cache text ms = ms.filterMap fun m =>
        (lookupVariable cache m.2.2).map fun cv =>
          ⟨mkRange text m.1 (m.1 + m.2.1), cv.color⟩ := by
  intro ms
  induction ms with
  | nil => rfl
  | cons m t ih =>
    cases h : lookupVariable cache m.2.2 with
    | none => simp [cssLoop, h, List.filterMap_cons, ih]
    | some cv => simp [cssLoop, h, List.filterMap_cons, ih]

/-! ## Claims -/

/-- Claim C2: for every `NormalizedColor` whose red, green and blue components
are exact multiples of 1/255 and whose alpha is 1.0 or k/255 for an integer
0 ≤ k < 255, and for either casing setting, decoding the encoded text
reproduces the color exactly: `parseColor (stringifyColor c casing) = c`
(alpha 1.0 is omitted from the encoded form and restored by decoding). -/
theorem parseColor_stringifyColor_roundtrip (i j k : ℕ) (a : ℚ) (casing : String)
    (hi : i ≤ 255) (hj : j ≤ 255) (hk : k ≤ 255)
    (ha : a = 1 ∨ ∃ m : ℕ, m < 255 ∧ a = (m : ℚ) / 255) :
    parseColor (stringifyColor
        ⟨(i : ℚ) / 255, (j : ℚ) / 255, (k : ℚ) / 255, a⟩ casing) =
      ⟨(i : ℚ) / 255, (j : ℚ) / 255, (k : ℚ) / 255, a⟩ := by
  simp only [stringifyColor]
  by_cases hc : casing = "Lowercase"
  · rw [if_pos hc]
    exact parse_stringify_core Char.toLower
      (fun n hn => (natByteCode_spec n hn).2.2.2) i j k a hi hj hk ha
  · rw [if_neg hc]
    exact parse_stringify_core Char.toUpper
      (fun n hn => (natByteCode_spec n hn).2.2.1) i j k a hi hj hk ha

/-- Witness for C2 at the concrete color (51/255, 102/255, 153/255, 4/255),
lowercase casing. -/
theorem parseColor_stringifyColor_roundtrip_witness :
    parseColor (stringifyColor
        ⟨((51 : ℕ) : ℚ) / 255, ((102 : ℕ) : ℚ) / 255, ((153 : ℕ) : ℚ) / 255,
          ((4 : ℕ) : ℚ) / 255⟩ "Lowercase") =
      ⟨((51 : ℕ) : ℚ) / 255, ((102 : ℕ) : ℚ) / 255, ((153 : ℕ) : ℚ) / 255,
        ((4 : ℕ) : ℚ) / 255⟩ :=
  parseColor_stringifyColor_roundtrip 51 102 153 (((4 : ℕ) : ℚ) / 255) "Lowercase"
    (by norm_num) (by norm_num) (by norm_num) (Or.inr ⟨4, by norm_num, rfl⟩)

/-- Claim C5: for a color-language document containing
`maxNumberOfColorTokens + k` hex-pattern matches (k ≥ 1), `findColorTokens`
returns exactly `maxNumberOfColorTokens` tokens and sends the cap advisory
notification, carrying the configured cap value, exactly once. -/
theorem findColorTokens_cap_enforcement (s : JSONColorTokenSettings)
    (cache : TokenCache) (doc : TextDocument) (k : ℕ)
    (hlang : isColorLanguage s doc.languageId = true)
    (hk : 1 ≤ k)
    (hcount : (scanHex doc.text.toList).length = s.maxNumberOfColorTokens + k) :
    (findColorTokens s cache doc).1.length = s.maxNumberOfColorTokens ∧
      (findColorTokens s cache doc).2 = [s.maxNumberOfColorTokens] := by
  have hlen : (cappedLoop (hexTokenMk doc.text.toList) s.maxNumberOfColorTokens
      (scanHex doc.text.toList) 0).1.length = s.maxNumberOfColorTokens := by
    have h := cappedLoop_length_full (hexTokenMk doc.text.toList)
      s.maxNumberOfColorTokens (scanHex doc.text.toList) 0 (Nat.zero_le _) (by omega)
    simpa using h
  have hsnd : (cappedLoop (hexTokenMk doc.text.toList) s.maxNumberOfColorTokens
      (scanHex doc.text.toList) 0).2 = s.maxNumberOfColorTokens := by
    rw [cappedLoop_snd, hlen]; omega
  simp only [findColorTokens, hlang, if_true]
  by_cases hcpp : doc.languageId = "cpp" ∨ doc.languageId = "c++"
  · rw [if_pos hcpp, hsnd, cappedLoop_at_max]
    exact ⟨by rw [List.append_nil]; exact hlen, by simp⟩
  · rw [if_neg hcpp, hsnd]
    exact ⟨by rw [List.append_nil]; exact hlen, by simp⟩

/-- Witness for C5: cap 1, two hex matches, one token and one advisory. -/
theorem findColorTokens_cap_enforcement_witness :
    (findColorTokens ⟨1, "Uppercase", ["json"], ["css"]⟩ []
        ⟨"u", "json", "#ff0000 #00ff00"⟩).1.length = 1 ∧
      (findColorTokens ⟨1, "Uppercase", ["json"], ["css"]⟩ []
        ⟨"u", "json", "#ff0000 #00ff00"⟩).2 = [1] :=
  findColorTokens_cap_enforcement ⟨1, "Uppercase", ["json"], ["css"]⟩ []
    ⟨"u", "json", "#ff0000 #00ff00"⟩ 1 (by decide) (by decide) (by decide)

/-- Claim C1, counterexample: for a reference-language (css) document, the
output of `findColorTokens` is not bounded by `maxNumberOfColorTokens` — with
the cap set to 1 and a cached variable referenced twice, two tokens are
returned. -/
theorem findColorTokens_css_exceeds_cap :
    ¬ ((findColorTokens ⟨1, "Uppercase", ["json"], ["css"]⟩
        [("file:///a.json", [("a", ⟨"#ff0000", ⟨⟨0, 0⟩, ⟨0, 1⟩⟩⟩)])]
        ⟨"file:///b.css", "css", "var(--a) var(--a)"⟩).1.length ≤
      (1 : Nat)) := by decide

/-- Claim C1, amended: the cap bounds the token list for every document that
is not classified as a reference-language (css) document; reference-language
documents are resolved without a cap. -/
theorem findColorTokens_capped_nonCss (s : JSONColorTokenSettings)
    (cache : TokenCache) (doc : TextDocument)
    (h : isCSSLanguage s doc.languageId = false) :
    (findColorTokens s cache doc).1.length ≤ s.maxNumberOfColorTokens := by
  by_cases hcl : isColorLanguage s doc.languageId = true
  · simp only [findColorTokens, hcl, if_true]
    have e1 := cappedLoop_snd (hexTokenMk doc.text.toList) s.maxNumberOfColorTokens
      (scanHex doc.text.toList) 0
    have b1 := cappedLoop_length_le (hexTokenMk doc.text.toList)
      s.maxNumberOfColorTokens (scanHex doc.text.toList) 0
    by_cases hcpp : doc.languageId = "cpp" ∨ doc.languageId = "c++"
    · rw [if_pos hcpp]
      have b2 := cappedLoop_length_le (tripletTokenMk doc.text.toList)
        s.maxNumberOfColorTokens (scanTriplets doc.text.toList)
        (cappedLoop (hexTokenMk doc.text.toList) s.maxNumberOfColorTokens
          (scanHex doc.text.toList) 0).2
      rw [List.length_append]
      omega
    · rw [if_neg hcpp]
      simpa using b1
  · have hcl' : isColorLanguage s doc.languageId = false := by
      simpa using hcl
    simp [findColorTokens, hcl', h]

/-- Witness for the amended C1: a json document with two hex tokens under the
default cap of 1000. -/
theorem findColorTokens_capped_nonCss_witness :
    isCSSLanguage defaultSettings "json" = false ∧
      (findColorTokens defaultSettings [] ⟨"u", "json", "#ff0000 #00ff00"⟩).1.length ≤
        defaultSettings.maxNumberOfColorTokens :=
  ⟨by decide, findColorTokens_capped_nonCss defaultSettings []
    ⟨"u", "json", "#ff0000 #00ff00"⟩ (by decide)⟩

/-- Claim C3: applying `updateColorTokenCache` to a json/jsonc document whose
text fails the structural JSON parse leaves the whole token cache exactly as
it was — the previous entry (stale or absent) is kept, and no error
escapes (the model is total). -/
theorem updateColorTokenCache_parse_failure (s : JSONColorTokenSettings)
    (cache : TokenCache) (doc : TextDocument)
    (hjson : doc.languageId = "json" ∨ doc.languageId = "jsonc")
    (hfail : jsonParse doc.text = none) :
    updateColorTokenCache s cache doc = cache := by
  unfold updateColorTokenCache
  by_cases hcl : isColorLanguage s doc.languageId = true
  · rw [if_pos hcl, if_pos hjson, hfail]
  · rw [if_neg hcl]

/-- Witness for C3: a cache holding a previously parsed definition of
`primary` survives an update with a truncated (malformed) second version of
the same document, unchanged. -/
theorem updateColorTokenCache_parse_failure_witness :
    updateColorTokenCache defaultSettings
        [("file:///a.json", [("primary", ⟨"#336699", ⟨⟨0, 2⟩, ⟨0, 9⟩⟩⟩)])]
        ⟨"file:///a.json", "json", "\x7b\"primary\": \"#336699\""⟩ =
      [("file:///a.json", [("primary", ⟨"#336699", ⟨⟨0, 2⟩, ⟨0, 9⟩⟩⟩)])] :=
  updateColorTokenCache_parse_failure defaultSettings
    [("file:///a.json", [("primary", ⟨"#336699", ⟨⟨0, 2⟩, ⟨0, 9⟩⟩⟩)])]
    ⟨"file:///a.json", "json", "\x7b\"primary\": \"#336699\""⟩
    (Or.inl rfl) (by rfl)

/-- Claim C4: for a reference-language (css) document, detection emits, for
each `var(--name)` occurrence in text order whose name is cached by some
document, exactly one token carrying the cached color at the occurrence's own
source range; occurrences whose name is cached nowhere are silently
skipped. -/
theorem findColorTokens_css_resolution (s : JSONColorTokenSettings)
    (cache : TokenCache) (doc : TextDocument)
    (h : isCSSLanguage s doc.languageId = true) :
    (findColorTokens s cache doc).1 =
      (scanCssVars doc.text.toList).filterMap fun m =>
        (lookupVariable cache m.2.2).map fun cv =>
          ⟨mkRange doc.text.toList m.1 (m.1 + m.2.1), cv.color⟩ := by
  have hcl : ¬ (isColorLanguage s doc.languageId = true) := by
    have hmem : doc.languageId ∈ s.cssLanguages := by
      simpa [isCSSLanguage] using h
    simp only [isColorLanguage, Bool.and_eq_true, Bool.not_eq_true']
    intro hcon
    exact absurd hmem (by simpa using hcon.1)
  simp only [findColorTokens]
  rw [if_neg hcl, if_pos h]
  exact cssLoop_eq_filterMap cache doc.text.toList (scanCssVars doc.text.toList)

/-- Witness for C4: one cached variable, referenced once by a css document;
the emitted token carries the cached color `#336699` at the reference's own
range. -/
theorem findColorTokens_css_resolution_witness :
    (findColorTokens defaultSettings
        [("file:///a.json", [("primary", ⟨"#336699", ⟨⟨0, 2⟩, ⟨0, 9⟩⟩⟩)])]
        ⟨"file:///s.css", "css", "a \x7b color: var(--primary); \x7d"⟩).1 =
      (scanCssVars ("a \x7b color: var(--primary); \x7d" : String).toList).filterMap
        fun m =>
          (lookupVariable
            [("file:///a.json", [("primary", ⟨"#336699", ⟨⟨0, 2⟩, ⟨0, 9⟩⟩⟩)])]
            m.2.2).map fun cv =>
            ⟨mkRange ("a \x7b color: var(--primary); \x7d" : String).toList m.1
              (m.1 + m.2.1), cv.color⟩ :=
  findColorTokens_css_resolution defaultSettings
    [("file:///a.json", [("primary", ⟨"#336699", ⟨⟨0, 2⟩, ⟨0, 9⟩⟩⟩)])]
    ⟨"file:///s.css", "css", "a \x7b color: var(--primary); \x7d"⟩ (by decide)

/-- Claim C9, counterexample: with the only reference of the line occupying
characters 8–16 and the request made at character 0 — so that no reference is
at the given position — the definition request still returns the definition of
that reference, because the handler scans the whole line, not the position. -/
theorem onDefinition_not_position_based :
    ((scanCssVars (lineTextAt ("pad pad var(--a)" : String).toList 0)).all
      (fun m => decide (0 < m.1))) = true ∧
    onDefinition defaultSettings
        [("file:///a.json", [("a", ⟨"#ff0000", ⟨⟨0, 2⟩, ⟨0, 3⟩⟩⟩)])]
        [⟨"file:///b.css", "css", "pad pad var(--a)"⟩] "file:///b.css" ⟨0, 0⟩ =
      some [⟨"file:///a.json", ⟨⟨0, 2⟩, ⟨0, 3⟩⟩⟩] := by decide

/-- Claim C9, amended: the definition request returns nothing when the
document is not a reference-language document or when no `var(--name)`
reference occurs on the line containing the given position; otherwise it takes
the first reference on that line (regardless of the position's character) and
returns one (documentUri, definition range) pair per document currently
caching that variable name. -/
theorem onDefinition_line_resolution (s : JSONColorTokenSettings)
    (cache : TokenCache) (documents : List TextDocument) (uri : String)
    (pos : Position) (doc : TextDocument)
    (hfind : documents.find? (fun d => d.uri = uri) = some doc) :
    (isCSSLanguage s doc.languageId = false →
      onDefinition s cache documents uri pos = none) ∧
    (isCSSLanguage s doc.languageId = true →
      ((scanCssVars (lineTextAt doc.text.toList pos.line)).head? = none →
        onDefinition s cache documents uri pos = none) ∧
      (∀ m, (scanCssVars (lineTextAt doc.text.toList pos.line)).head? = some m →
        onDefinition s cache documents uri pos =
          some (cache.filterMap fun en =>
            (assocFind en.2 m.2.2).map fun cv => Location.mk en.1 cv.range))) := by
  simp only [onDefinition, hfind]
  constructor
  · intro hf
    rw [if_neg (by simp [hf])]
  · intro ht
    rw [if_pos ht]
    constructor
    · intro hn; rw [hn]
    · intro m hm; rw [hm]

/-- Witness for the amended C9, at the counterexample's own input. -/
theorem onDefinition_line_resolution_witness :
    onDefinition defaultSettings
        [("file:///a.json", [("a", ⟨"#ff0000", ⟨⟨0, 2⟩, ⟨0, 3⟩⟩⟩)])]
        [⟨"file:///b.css", "css", "pad pad var(--a)"⟩] "file:///b.css" ⟨0, 0⟩ =
      some ([("file:///a.json",
          [("a", (⟨"#ff0000", ⟨⟨0, 2⟩, ⟨0, 3⟩⟩⟩ : CachedVariable))])].filterMap
        fun en => (assocFind en.2 (8, 8, "a").2.2).map
          fun cv => Location.mk en.1 cv.range) :=
  ((onDefinition_line_resolution defaultSettings
      [("file:///a.json", [("a", ⟨"#ff0000", ⟨⟨0, 2⟩, ⟨0, 3⟩⟩⟩)])]
      [⟨"file:///b.css", "css", "pad pad var(--a)"⟩] "file:///b.css" ⟨0, 0⟩
      ⟨"file:///b.css", "css", "pad pad var(--a)"⟩ (by rfl)).2
    (by decide)).2 (8, 8, "a") (by decide)

/-- Modelled from the spec: "the corresponding decoded value is itself a
syntactically valid color token (per HexPattern)" — a string that is, as a
whole, one HexPattern match. -/
def isExactColorTokenSpec (s : String) : Bool :=
  match matchHexAt s.toList with
  | some len => len = s.toList.length
  | none => false

/-- Claim C6, counterexample: a value that merely contains a hex token inside
a longer string is recorded by `updateColorTokenCache` even though it is not
itself a syntactically valid color token. -/
theorem updateColorTokenCache_records_containment :
    updateColorTokenCache defaultSettings []
        ⟨"u", "json", "\x7b\"a\": \"x #ff0000 y\"\x7d"⟩ =
      [("u", [("a", ⟨"x #ff0000 y", ⟨⟨0, 2⟩, ⟨0, 3⟩⟩⟩)])] ∧
    isExactColorTokenSpec "x #ff0000 y" = false := by decide

/-- Claim C6, amended: during `updateColorTokenCache` on a successfully
parsed json/jsonc document, a key is recorded as a CachedVariable exactly
when it is a `jsonKeyPattern` match and its corresponding decoded value is a
string containing a HexPattern match anywhere inside it (the regex-test
accepts substrings, not only whole-string color literals). -/
theorem updateColorTokenCache_record_iff (s : JSONColorTokenSettings)
    (cache : TokenCache) (doc : TextDocument) (jsonObj : JsonValue) (name : String)
    (hcl : isColorLanguage s doc.languageId = true)
    (hjson : doc.languageId = "json" ∨ doc.languageId = "jsonc")
    (hparse : jsonParse doc.text = some jsonObj) :
    ∃ entry, assocFind (updateColorTokenCache s cache doc) doc.uri = some entry ∧
      ((assocFind entry name).isSome = true ↔
        (∃ i, (i, name) ∈ scanKeys doc.text.toList) ∧
          isColorToken (jsLookup jsonObj name) = true) := by
  refine ⟨buildColorTokenObj doc.text.toList jsonObj, ?_, ?_⟩
  · unfold updateColorTokenCache
    rw [if_pos hcl, if_pos hjson, hparse, assocFind_objSet_self]
  · exact buildColorTokenObj_mem_iff doc.text.toList jsonObj name

/-- Witness for the amended C6, at the counterexample's document. -/
theorem updateColorTokenCache_record_iff_witness :
    ∃ entry, assocFind (updateColorTokenCache defaultSettings []
        ⟨"u", "json", "\x7b\"a\": \"x #ff0000 y\"\x7d"⟩) "u" = some entry ∧
      ((assocFind entry "a").isSome = true ↔
        (∃ i, (i, "a") ∈ scanKeys
          (("\x7b\"a\": \"x #ff0000 y\"\x7d" : String)).toList) ∧
          isColorToken (jsLookup
            (JsonValue.obj [("a", JsonValue.str "x #ff0000 y")]) "a") = true) :=
  updateColorTokenCache_record_iff defaultSettings []
    ⟨"u", "json", "\x7b\"a\": \"x #ff0000 y\"\x7d"⟩
    (JsonValue.obj [("a", JsonValue.str "x #ff0000 y")]) "a"
    (by decide) (Or.inl rfl) (by rfl)

/-- Claim C10: after a successful `updateColorTokenCache`, a variable name is
in the document's cache entry only if the dynamic lookup `jsonObj[name]` on
the top-level parsed value yields a string passing the color-token test, and
the recorded color is that very string — a key matched only inside nested
sub-objects is looked up at the top level and is therefore never cached unless
the same name also resolves at the top level to a color-token value. -/
theorem updateColorTokenCache_top_level_only (s : JSONColorTokenSettings)
    (cache : TokenCache) (doc : TextDocument) (jsonObj : JsonValue)
    (name : String) (cv : CachedVariable) (entry : List (String × CachedVariable))
    (hcl : isColorLanguage s doc.languageId = true)
    (hjson : doc.languageId = "json" ∨ doc.languageId = "jsonc")
    (hparse : jsonParse doc.text = some jsonObj)
    (hentry : assocFind (updateColorTokenCache s cache doc) doc.uri = some entry)
    (hname : assocFind entry name = some cv) :
    ∃ str, jsLookup jsonObj name = some (JsonValue.str str) ∧
      (scanHex str.toList).isEmpty = false ∧ cv.color = str := by
  unfold updateColorTokenCache at hentry
  rw [if_pos hcl, if_pos hjson, hparse, assocFind_objSet_self] at hentry
  have hent : entry = buildColorTokenObj doc.text.toList jsonObj := by
    cases hentry; rfl
  subst hent
  rcases buildFold_find_spec doc.text.toList jsonObj name cv (scanKeys doc.text.toList)
      [] hname with habs | ⟨_, hct, hcol⟩
  · simp [assocFind] at habs
  · rcases (isColorToken_iff _).mp hct with ⟨str, hstr, hne⟩
    refine ⟨str, hstr, hne, ?_⟩
    rw [hcol, hstr]
    rfl

/-- Witness for C10: a document with a nested object; the nested-only key
`inner` is matched by the key pattern but not cached, while the top-level key
`top` is cached with its own value. -/
theorem updateColorTokenCache_top_level_only_witness :
    (∃ str, jsLookup (JsonValue.obj
          [("outer", JsonValue.obj [("inner", JsonValue.str "#ff0000")]),
            ("top", JsonValue.str "#00ff00")]) "top" =
        some (JsonValue.str str) ∧
      (scanHex str.toList).isEmpty = false ∧
      ({ color := "#00ff00", range := ⟨⟨0, 33⟩, ⟨0, 36⟩⟩ } : CachedVariable).color
        = str) ∧
    assocFind [("top", ({ color := "#00ff00", range := ⟨⟨0, 33⟩, ⟨0, 36⟩⟩ } :
      CachedVariable))] "inner" = none :=
  ⟨updateColorTokenCache_top_level_only defaultSettings []
    ⟨"u", "json",
      "\x7b\"outer\": \x7b\"inner\": \"#ff0000\"\x7d, \"top\": \"#00ff00\"\x7d"⟩
    (JsonValue.obj
      [("outer", JsonValue.obj [("inner", JsonValue.str "#ff0000")]),
        ("top", JsonValue.str "#00ff00")])
    "top" ⟨"#00ff00", ⟨⟨0, 33⟩, ⟨0, 36⟩⟩⟩
    [("top", ⟨"#00ff00", ⟨⟨0, 33⟩, ⟨0, 36⟩⟩⟩)]
    (by decide) (Or.inl rfl) (by rfl) (by rfl) (by rfl), by rfl⟩

/-- Claim C8, counterexample: `rgbArrayPattern` does not match integer
components written with leading zeros — the text `{025,0,0}` produces no
match at all (the claim says it matches with first capture "025"). -/
theorem tripletPattern_leading_zero_rejected :
    scanTriplets ("\x7b025,0,0\x7d" : String).toList = [] := by decide

/-- Claim C8, amended: `rgbArrayPattern` rejects components with leading
zeros: `{025,0,0}` does not match, while `{25,0,0}` matches with its first
component captured as "25" and read as the value 25. -/
theorem tripletPattern_no_leading_zeros :
    scanTriplets ("\x7b025,0,0\x7d" : String).toList = [] ∧
      scanTriplets ("\x7b25,0,0\x7d" : String).toList =
        [(0, 8, (['2', '5'], ['0'], ['0']))] ∧
      parseIntDec ['2', '5'] = 25 := by
  set_option synthInstance.maxSize 512 in decide

/-! ### Canonical decimal digit groups and the triplet matcher

The decimal rendering of a byte value has one of the shapes the integer
alternation of `rgbArrayPattern` tries first, so on a canonically rendered
triplet the first candidate of each alternation is the whole digit group. -/

/-- Shapes of digit groups matched by the integer alternation at full length:
one digit; two digits without leading zero; or one of the three-digit
alternatives (`25[0-5]`, `2[0-4][0-9]`, `1[0-9]{2}`). -/
def decShapeB : List Char → Bool
  | [a] => isDigitChar a
  | [a, b] => ('1' ≤ a && a ≤ '9') && isDigitChar b
  | [a, b, c] =>
    (a = '2' && b = '5' && ('0' ≤ c && c ≤ '5')) ||
    (a = '2' && ('0' ≤ b && b ≤ '4') && isDigitChar c) ||
    (a = '1' && isDigitChar b && isDigitChar c)
  | _ => false

theorem decDigits_spec : ∀ n : ℕ, n < 256 →
    decShapeB (Nat.toDigits 10 n) = true ∧ parseIntDec (Nat.toDigits 10 n) = n := by
  set_option maxRecDepth 8000 in decide

theorem ws_false_of_digit (a : Char) (h : isDigitChar a = true) : isJsWs a = false := by
  simp only [isDigitChar, Bool.and_eq_true, decide_eq_true_eq] at h
  simp only [isJsWs, Bool.or_eq_false_iff, decide_eq_false_iff_not]
  refine ⟨⟨⟨⟨⟨?_, ?_⟩, ?_⟩, ?_⟩, ?_⟩, ?_⟩ <;>
    · intro he; rw [he] at h; exact absurd h.1 (by decide)

theorem decShapeB_head (ds : List Char) (h : decShapeB ds = true) :
    ∃ a t, ds = a :: t ∧ isDigitChar a = true := by
  match ds, h with
  | [a], h =>
    exact ⟨a, [], rfl, by simpa [decShapeB] using h⟩
  | [a, b], h =>
    refine ⟨a, [b], rfl, ?_⟩
    simp only [decShapeB, Bool.and_eq_true, decide_eq_true_eq] at h
    simp only [isDigitChar, Bool.and_eq_true, decide_eq_true_eq]
    exact ⟨le_trans (by decide) h.1.1, le_trans h.1.2 (by decide)⟩
  | [a, b, c], h =>
    refine ⟨a, [b, c], rfl, ?_⟩
    simp only [decShapeB, Bool.or_eq_true, Bool.and_eq_true, decide_eq_true_eq] at h
    have ha : a = '2' ∨ a = '1' := by tauto
    rcases ha with ha | ha <;> rw [ha] <;> decide

theorem digit_between_05 (x : Char) (h1 : '0' ≤ x) (h2 : x ≤ '5') :
    isDigitChar x = true := by
  simp only [isDigitChar, Bool.and_eq_true, decide_eq_true_eq]
  exact ⟨h1, le_trans h2 (by decide)⟩

theorem digit_between_04 (x : Char) (h1 : '0' ≤ x) (h2 : x ≤ '4') :
    isDigitChar x = true := by
  simp only [isDigitChar, Bool.and_eq_true, decide_eq_true_eq]
  exact ⟨h1, le_trans h2 (by decide)⟩

/-- On a digit group of canonical shape followed by a non-digit character, the
first candidate the integer alternation produces is the whole group. -/
theorem intCandidates_head (ds : List Char) (c : Char) (rest : List Char)
    (h : decShapeB ds = true) (hc : isDigitChar c = false) :
    ∃ t, intCandidates (ds ++ c :: rest) = (ds, c :: rest) :: t := by
  match ds, h with
  | [], h => exact absurd h (by decide)
  | a :: b :: c3 :: d4 :: tl, h => exact absurd h (by simp [decShapeB])
  | [a], h =>
    have hda : isDigitChar a = true := by simpa [decShapeB] using h
    cases rest with
    | nil =>
      have e4a : intAlt4a [a, c] = none := by
        simp only [intAlt4a]
        rw [if_neg]
        rintro ⟨-, -, hd⟩
        rw [hd] at hc; cases hc
      have e4b : intAlt4b [a, c] = some ([a], [c]) := by
        simp only [intAlt4b]
        rw [if_pos hda]
      refine ⟨[], ?_⟩
      simp [intCandidates, intAlt1, intAlt2, intAlt3, e4a, e4b]
    | cons r rs =>
      have e1 : intAlt1 (a :: c :: r :: rs) = none := by
        simp only [intAlt1]
        rw [if_neg]
        rintro ⟨-, h5, -⟩
        rw [h5] at hc; exact absurd hc (by decide)
      have e2 : intAlt2 (a :: c :: r :: rs) = none := by
        simp only [intAlt2]
        rw [if_neg]
        rintro ⟨-, hge, hle, -⟩
        rw [digit_between_04 c hge hle] at hc; cases hc
      have e3 : intAlt3 (a :: c :: r :: rs) = none := by
        simp only [intAlt3]
        rw [if_neg]
        rintro ⟨-, hd, -⟩
        rw [hd] at hc; cases hc
      have e4a : intAlt4a (a :: c :: r :: rs) = none := by
        simp only [intAlt4a]
        rw [if_neg]
        rintro ⟨-, -, hd⟩
        rw [hd] at hc; cases hc
      have e4b : intAlt4b (a :: c :: r :: rs) = some ([a], c :: r :: rs) := by
        simp only [intAlt4b]
        rw [if_pos hda]
      refine ⟨[], ?_⟩
      simp [intCandidates, e1, e2, e3, e4a, e4b]
  | [a, b], h =>
    simp only [decShapeB, Bool.and_eq_true, decide_eq_true_eq] at h
    obtain ⟨⟨ha1, ha9⟩, hdb⟩ := h
    have e1 : intAlt1 (a :: b :: c :: rest) = none := by
      simp only [intAlt1]
      rw [if_neg]
      rintro ⟨-, -, hge, hle⟩
      rw [digit_between_05 c hge hle] at hc; cases hc
    have e2 : intAlt2 (a :: b :: c :: rest) = none := by
      simp only [intAlt2]
      rw [if_neg]
      rintro ⟨-, -, -, hd⟩
      rw [hd] at hc; cases hc
    have e3 : intAlt3 (a :: b :: c :: rest) = none := by
      simp only [intAlt3]
      rw [if_neg]
      rintro ⟨-, -, hd⟩
      rw [hd] at hc; cases hc
    have e4a : intAlt4a (a :: b :: c :: rest) = some ([a, b], c :: rest) := by
      simp only [intAlt4a]
      rw [if_pos ⟨ha1, ha9, hdb⟩]
    refine ⟨(intAlt4b (a :: b :: c :: rest)).toList, ?_⟩
    simp [intCandidates, e1, e2, e3, e4a]
  | [a, b, c3], h =>
    simp only [decShapeB, Bool.or_eq_true, Bool.and_eq_true, decide_eq_true_eq] at h
    rcases h with (⟨⟨ha2, hb5⟩, h0, h5⟩ | ⟨⟨ha2, hb0, hb4⟩, hd3⟩) | ⟨⟨ha1, hdb⟩, hd3⟩
    · have e1 : intAlt1 (a :: b :: c3 :: c :: rest) = some ([a, b, c3], c :: rest) := by
        simp only [intAlt1]
        rw [if_pos ⟨ha2, hb5, h0, h5⟩]
      refine ⟨(intAlt2 (a :: b :: c3 :: c :: rest)).toList ++
        (intAlt3 (a :: b :: c3 :: c :: rest)).toList ++
        (intAlt4a (a :: b :: c3 :: c :: rest)).toList ++
        (intAlt4b (a :: b :: c3 :: c :: rest)).toList, ?_⟩
      simp [intCandidates, e1]
    · have e1 : intAlt1 (a :: b :: c3 :: c :: rest) = none := by
        simp only [intAlt1]
        rw [if_neg]
        rintro ⟨-, h5, -⟩
        rw [h5] at hb4
        exact absurd hb4 (by decide)
      have e2 : intAlt2 (a :: b :: c3 :: c :: rest) = some ([a, b, c3], c :: rest) := by
        simp only [intAlt2]
        rw [if_pos ⟨ha2, hb0, hb4, hd3⟩]
      refine ⟨(intAlt3 (a :: b :: c3 :: c :: rest)).toList ++
        (intAlt4a (a :: b :: c3 :: c :: rest)).toList ++
        (intAlt4b (a :: b :: c3 :: c :: rest)).toList, ?_⟩
      simp [intCandidates, e1, e2]
    · have e1 : intAlt1 (a :: b :: c3 :: c :: rest) = none := by
        simp only [intAlt1]
        rw [if_neg]
        rintro ⟨h2, -⟩
        rw [ha1] at h2
        exact absurd h2 (by decide)
      have e2 : intAlt2 (a :: b :: c3 :: c :: rest) = none := by
        simp only [intAlt2]
        rw [if_neg]
        rintro ⟨h2, -⟩
        rw [ha1] at h2
        exact absurd h2 (by decide)
      have e3 : intAlt3 (a :: b :: c3 :: c :: rest) = some ([a, b, c3], c :: rest) := by
        simp only [intAlt3]
        rw [if_pos ⟨ha1, hdb, hd3⟩]
      refine ⟨(intAlt4a (a :: b :: c3 :: c :: rest)).toList ++
        (intAlt4b (a :: b :: c3 :: c :: rest)).toList, ?_⟩
      simp [intCandidates, e1, e2, e3]

theorem dropWhile_keep (p : Char → Bool) (a : Char) (l : List Char)
    (h : p a = false) : List.dropWhile p (a :: l) = a :: l := by
  simp [List.dropWhile_cons, h]

theorem dropWhile_keep_digits (ds : List Char) (R : List Char)
    (h : decShapeB ds = true) :
    List.dropWhile isJsWs (ds ++ R) = ds ++ R := by
  obtain ⟨a, t, e, hd⟩ := decShapeB_head ds h
  rw [e, List.cons_append, dropWhile_keep _ _ _ (ws_false_of_digit a hd),
    ← List.cons_append]

theorem tripletFrom3_canonical (d3 : List Char) (h3 : decShapeB d3 = true) :
    tripletFrom3 (d3 ++ ['}']) = some (d3, []) := by
  obtain ⟨r3, hr3⟩ := intCandidates_head d3 '}' [] h3 (by decide)
  rw [tripletFrom3, hr3, List.findSome?_cons]
  have hcl : List.dropWhile isJsWs ['}'] = ['}'] := by decide
  simp [hcl]

theorem tripletFrom2_canonical (d2 d3 : List Char)
    (h2 : decShapeB d2 = true) (h3 : decShapeB d3 = true) :
    tripletFrom2 (d2 ++ ',' :: (d3 ++ ['}'])) = some (d2, d3, []) := by
  obtain ⟨r2, hr2⟩ := intCandidates_head d2 ',' (d3 ++ ['}']) h2 (by decide)
  rw [tripletFrom2, hr2, List.findSome?_cons]
  have hwsc : List.dropWhile isJsWs (',' :: (d3 ++ ['}'])) = ',' :: (d3 ++ ['}']) :=
    dropWhile_keep _ _ _ (by decide)
  simp [hwsc, dropWhile_keep_digits d3 ['}'] h3, tripletFrom3_canonical d3 h3]

theorem matchTripletAfterBrace_canonical (d1 d2 d3 : List Char)
    (h1 : decShapeB d1 = true) (h2 : decShapeB d2 = true)
    (h3 : decShapeB d3 = true) :
    matchTripletAfterBrace (d1 ++ ',' :: (d2 ++ ',' :: (d3 ++ ['}']))) =
      some (d1, d2, d3, []) := by
  obtain ⟨r1, hr1⟩ :=
    intCandidates_head d1 ',' (d2 ++ ',' :: (d3 ++ ['}'])) h1 (by decide)
  rw [matchTripletAfterBrace,
    dropWhile_keep_digits d1 (',' :: (d2 ++ ',' :: (d3 ++ ['}']))) h1, hr1,
    List.findSome?_cons]
  have hwsc : List.dropWhile isJsWs (',' :: (d2 ++ ',' :: (d3 ++ ['}']))) =
      ',' :: (d2 ++ ',' :: (d3 ++ ['}'])) := dropWhile_keep _ _ _ (by decide)
  simp [hwsc, dropWhile_keep_digits d2 (',' :: (d3 ++ ['}'])) h2,
    tripletFrom2_canonical d2 d3 h2 h3]

theorem matchTripletAt_canonical (d1 d2 d3 : List Char)
    (h1 : decShapeB d1 = true) (h2 : decShapeB d2 = true)
    (h3 : decShapeB d3 = true) :
    matchTripletAt ('{' :: (d1 ++ ',' :: (d2 ++ ',' :: (d3 ++ ['}'])))) =
      some (('{' :: (d1 ++ ',' :: (d2 ++ ',' :: (d3 ++ ['}'])))).length,
        d1, d2, d3) := by
  simp only [matchTripletAt, matchTripletAfterBrace_canonical d1 d2 d3 h1 h2 h3,
    Option.map_some']
  simp

theorem floor_nat_div_mul (n : ℕ) : (⌊((n : ℚ) / 255) * 255⌋ : ℤ) = (n : ℤ) := by
  rw [div_mul_cancel₀ _ (by norm_num : (255 : ℚ) ≠ 0), Int.floor_natCast]

theorem colorToRgbArray_div (i j k : ℕ) :
    colorToRgbArray ⟨(i : ℚ) / 255, (j : ℚ) / 255, (k : ℚ) / 255, 1⟩ =
      ('{' :: (Nat.toDigits 10 i ++ ',' :: (Nat.toDigits 10 j ++ ',' ::
        (Nat.toDigits 10 k ++ ['}'])))).asString := by
  simp only [colorToRgbArray, floor_nat_div_mul, intToDecChars_natCast,
    List.cons_append, List.append_assoc]

theorem parseColor_tripletHexColor (i j k : ℕ)
    (hi : i ≤ 255) (hj : j ≤ 255) (hk : k ≤ 255) :
    parseColor (tripletHexColor i j k) =
      ⟨(i : ℚ) / 255, (j : ℚ) / 255, (k : ℚ) / 255, 1⟩ := by
  unfold tripletHexColor
  rw [padStart2_intToHexChars i (by omega), padStart2_intToHexChars j (by omega),
    padStart2_intToHexChars k (by omega)]
  rw [show natByteCode i ++ natByteCode j ++ natByteCode k =
    natByteCode i ++ natByteCode j ++ natByteCode k ++ ([] : List Char) from by simp]
  rw [parseColor_shape '#' (natByteCode i) (natByteCode j) (natByteCode k) []
    (natByteCode_spec i (by omega)).1 (natByteCode_spec j (by omega)).1
    (natByteCode_spec k (by omega)).1 (Or.inl rfl)]
  rw [(natByteCode_spec i (by omega)).2.1, (natByteCode_spec j (by omega)).2.1,
    (natByteCode_spec k (by omega)).2.1]
  simp

/-- Claim C7, counterexample: for the color with red 1/2 (not a multiple of
1/255, alpha 1.0), the triplet round-trip does not reproduce the color: the
encoder floors 1/2·255 to 127, and 127/255 ≠ 1/2. -/
theorem decodeTriplet_half_fails :
    decodeTriplet (colorToRgbArray ⟨1 / 2, 0, 0, 1⟩) ≠ some ⟨1 / 2, 0, 0, 1⟩ := by
  have h127 : (⌊(1 / 2 : ℚ) * 255⌋ : ℤ) = 127 := by
    rw [show (1 / 2 : ℚ) * 255 = 255 / 2 from by ring]
    rw [Int.floor_eq_iff]
    norm_num
  have h0 : (⌊(0 : ℚ) * 255⌋ : ℤ) = 0 := by norm_num
  have hR : colorToRgbArray ⟨1 / 2, 0, 0, 1⟩ =
      ('{' :: (intToDecChars 127 ++ ',' :: intToDecChars 0 ++ ',' ::
        intToDecChars 0 ++ ['}'])).asString := by
    simp only [colorToRgbArray, h127, h0]
  have hD : decodeTriplet (('{' :: (intToDecChars 127 ++ ',' :: intToDecChars 0 ++
      ',' :: intToDecChars 0 ++ ['}'])).asString) =
      some (parseColor (tripletHexColor 127 0 0)) := by
    unfold decodeTriplet
    rw [show (('{' :: (intToDecChars 127 ++ ',' :: intToDecChars 0 ++ ',' ::
        intToDecChars 0 ++ ['}'])).asString).toList =
      '{' :: (Nat.toDigits 10 127 ++ ',' :: (Nat.toDigits 10 0 ++ ',' ::
        (Nat.toDigits 10 0 ++ ['}']))) from by decide]
    rw [matchTripletAt_canonical _ _ _ (by decide) (by decide) (by decide)]
    simp only [Option.map_some']
    rw [show parseIntDec (Nat.toDigits 10 127) = 127 from by decide,
      show parseIntDec (Nat.toDigits 10 0) = 0 from by decide]
  rw [hR, hD, parseColor_tripletHexColor 127 0 0 (by omega) (by omega) (by omega)]
  intro hEq
  have hred : ((127 : ℕ) : ℚ) / 255 = 1 / 2 := by
    have := congrArg Color.red (Option.some.inj hEq)
    simpa using this
  norm_num at hred

/-- Claim C7, amended: for every color whose red, green and blue components
are exact multiples of 1/255 (in [0,1]) and whose alpha is 1.0, the triplet
round-trip reproduces the color exactly: the encoder renders
`{⌊r·255⌋,⌊g·255⌋,⌊b·255⌋}` (`colorToRgbArray`), and the decoder — matching
the triplet pattern, reading each capture with `parseInt`, and decoding the
re-rendered hex color — restores the components with alpha 1.0. -/
theorem decodeTriplet_encodeTriplet_roundtrip (i j k : ℕ)
    (hi : i ≤ 255) (hj : j ≤ 255) (hk : k ≤ 255) :
    decodeTriplet (colorToRgbArray ⟨(i : ℚ) / 255, (j : ℚ) / 255, (k : ℚ) / 255, 1⟩) =
      some ⟨(i : ℚ) / 255, (j : ℚ) / 255, (k : ℚ) / 255, 1⟩ := by
  rw [colorToRgbArray_div]
  unfold decodeTriplet
  rw [show (('{' :: (Nat.toDigits 10 i ++ ',' :: (Nat.toDigits 10 j ++ ',' ::
      (Nat.toDigits 10 k ++ ['}'])))).asString).toList =
    '{' :: (Nat.toDigits 10 i ++ ',' :: (Nat.toDigits 10 j ++ ',' ::
      (Nat.toDigits 10 k ++ ['}']))) from rfl]
  rw [matchTripletAt_canonical _ _ _ (decDigits_spec i (by omega)).1
    (decDigits_spec j (by omega)).1 (decDigits_spec k (by omega)).1]
  simp only [Option.map_some']
  rw [(decDigits_spec i (by omega)).2, (decDigits_spec j (by omega)).2,
    (decDigits_spec k (by omega)).2]
  rw [parseColor_tripletHexColor i j k (by omega) (by omega) (by omega)]

/-- Witness for the amended C7 at the color (128/255, 0, 1, 1). -/
theorem decodeTriplet_encodeTriplet_roundtrip_witness :
    decodeTriplet (colorToRgbArray
        ⟨((128 : ℕ) : ℚ) / 255, ((0 : ℕ) : ℚ) / 255, ((255 : ℕ) : ℚ) / 255, 1⟩) =
      some ⟨((128 : ℕ) : ℚ) / 255, ((0 : ℕ) : ℚ) / 255, ((255 : ℕ) : ℚ) / 255, 1⟩ :=
  decodeTriplet_encodeTriplet_roundtrip 128 0 255 (by norm_num) (by norm_num)
    (by norm_num)

end JsonColorToken
